import Mathlib

/-!
Verification of the McGill-Billboard SALAMI annotation parser
(`mirdata/billboard.py`): a shallow embedding of `_parse_salami`,
`_parse_salami_metadata`, `_timed_sections`, `_load_sections` and
`_load_chords`, with times modelled as rationals and Python exceptions
modelled by `Except String`.  The filesystem is modelled as a partial map
from paths to file contents; a missing key is a missing file.
Python's `float` is kept abstract as a parameter `floatFn : String → Option ℚ`
(`none` models `float` raising `ValueError`); `decFloat` below is one
concrete instance used to evaluate the development on sample inputs.
-/

namespace Billboard

/-! ## String primitives (Python semantics, over `String.data`) -/

/-- Length of a string in characters, like Python `len`. -/
def strLen (s : String) : Nat := s.data.length

/-- Python slicing `s[n:]`. -/
def strDrop (s : String) (n : Nat) : String := ⟨s.data.drop n⟩

/-- Python slicing `s[0:n]`. -/
def strTake (s : String) (n : Nat) : String := ⟨s.data.take n⟩

/-- Python `s.startswith(t)`. -/
def strStartsWith (s t : String) : Bool := t.data.isPrefixOf s.data

/-- Python `s.find(c)` for a single character: first index, `-1` if absent. -/
def pyFind (s : String) (c : Char) : Int :=
  match s.data.findIdx? (fun a => a = c) with
  | some n => (n : Int)
  | none => -1

/-- Python `s.split(sep)` for a one-character separator `sep`. -/
def splitChar (c : Char) : List Char → List (List Char)
  | [] => [[]]
  | a :: rest =>
    let r := splitChar c rest
    if a = c then [] :: r else (a :: r.headD []) :: r.tail

/-- Python `s.split(sep)` for a two-character separator, scanning leftmost
first and resuming after each separator occurrence. -/
def splitTwo (c1 c2 : Char) : List Char → List (List Char)
  | [] => [[]]
  | [a] => [[a]]
  | a :: b :: rest =>
    if a = c1 ∧ b = c2 then [] :: splitTwo c1 c2 rest
    else
      let r := splitTwo c1 c2 (b :: rest)
      (a :: r.headD []) :: r.tail

/-- Python `s.split("\n")`. -/
def strSplitNl (s : String) : List String := (splitChar '\n' s.data).map String.mk

/-- Python `s.split("|")`. -/
def strSplitPipe (s : String) : List String := (splitChar '|' s.data).map String.mk

/-- Python `s.split("\t")`. -/
def strSplitTab (s : String) : List String := (splitChar '\t' s.data).map String.mk

/-- Python `s.split(", ")`. -/
def strSplitCommaSpace (s : String) : List String :=
  (splitTwo ',' ' ' s.data).map String.mk

/-- Python `s.rstrip()`. -/
def strRstrip (s : String) : String :=
  ⟨(s.data.reverse.dropWhile Char.isWhitespace).reverse⟩

/-! ## The regex `(?=\| (.*?) \|)` of `_parse_salami`

A zero-width lookahead: `re.findall` reports the lazy capture at every
character position where `\| (.*?) \|` matches, so captures may overlap. -/

/-- The lazy capture `(.*?)` followed by `" |"`: the shortest prefix of the
input that is followed by a space and a pipe. -/
def capTo : List Char → Option (List Char)
  | [] => none
  | ' ' :: '|' :: _ => some []
  | c :: rest => (capTo rest).map (fun l => c :: l)

/-- Try to match `\| (.*?) \|` at the head of the input, returning the capture. -/
def matchChordAt : List Char → Option (List Char)
  | '|' :: ' ' :: rest => capTo rest
  | _ => none

/-- All captures of the zero-width pattern, one attempt per position. -/
def findallAux : List Char → List (List Char)
  | [] => []
  | c :: rest =>
    (match matchChordAt (c :: rest) with
     | some cap => [cap]
     | none => []) ++ findallAux rest

/-- `re.findall(r"(?=\| (.*?) \|)", i)`. -/
def findallChords (i : String) : List String := (findallAux i.data).map String.mk

/-! ## A concrete `float` instance for evaluating the development -/

/-- Numeric value of a digit list (most significant first). -/
def digitsVal (l : List Char) : Nat :=
  l.foldl (fun acc c => acc * 10 + (c.toNat - 48)) 0

/-- A plain-decimal instance of Python `float`: optional sign, digits, and an
optional fractional part.  Used only to run the development on concrete
annotation texts; the theorems quantify over the float function. -/
def decFloat (s : String) : Option ℚ :=
  let l := s.data
  let sgn : ℚ := match l with | '-' :: _ => -1 | _ => 1
  let l₂ := match l with | '-' :: rest => rest | '+' :: rest => rest | _ => l
  let ip := l₂.takeWhile Char.isDigit
  let rest := l₂.dropWhile Char.isDigit
  match rest with
  | [] => if ip ≠ [] then some (sgn * (digitsVal ip : ℚ)) else none
  | '.' :: frac =>
    if frac.all Char.isDigit ∧ (ip ≠ [] ∨ frac ≠ []) then
      some (sgn * ((digitsVal ip : ℚ) + (digitsVal frac : ℚ) / (10 : ℚ) ^ frac.length))
    else none
  | _ => none

/-! ## Data model -/

/-- Header fields recognised on `#` lines (`title`, `artist`, `metre`, `tonic`);
absent dictionary keys are `none` / `[]`. -/
structure Header where
  title? : Option String
  artist? : Option String
  meter : List String
  tonic : List String
deriving DecidableEq

/-- The empty header dictionary. -/
def emptyHeader : Header := ⟨none, none, [], []⟩

/-- One parsed event dictionary of `_parse_salami`: keys `time`, `section`,
`chords`, `notes`; a missing key is `none`. -/
structure SalamiEvent where
  time : ℚ
  sectionLbl? : Option String
  chords? : Option (List String)
  notes? : Option (List String)
deriving DecidableEq

/-- The result dictionary of `_parse_salami`: header keys plus the `events`
key, which is present only if at least one data line was parsed. -/
structure ParsedSalami where
  header : Header
  events? : Option (List SalamiEvent)
deriving DecidableEq

/-- The empty result dictionary `o = {}`. -/
def emptyParsed : ParsedSalami := ⟨emptyHeader, none⟩

/-- One entry of the `_timed_sections` output:
`{"time": tic, "section": c, "length": seconds_per_chord}`. -/
structure TimedSection where
  time : ℚ
  sectionPair? : Option (String × String)
  length : ℚ
deriving DecidableEq

/-- `utils.SectionData`: interval rows paired with section labels. -/
structure SectionData where
  intervals : List (ℚ × ℚ)
  labels : List (Option (String × String))
deriving DecidableEq

/-- `utils.ChordData`: interval rows paired with chord labels. -/
structure ChordData where
  intervals : List (ℚ × ℚ)
  labels : List String
deriving DecidableEq

/-- The filesystem: a partial map from paths to text contents; `none` models
`os.path.exists` returning false. -/
def FileSystem : Type := String → Option String

/-! ## `_parse_salami` -/

/-- The header-extraction block shared by `_parse_salami` and
`_parse_salami_metadata`: four independent prefix tests on `x[2:]`, capturing
`x[9:]` for `title`/`metre`/`tonic` and `x[10:]` for `artist`. -/
def processHeaderLine (h : Header) (x : String) : Header :=
  let h := if strStartsWith (strDrop x 2) "title:" then
      { h with title? := some (strDrop x 9) } else h
  let h := if strStartsWith (strDrop x 2) "artist:" then
      { h with artist? := some (strDrop x 10) } else h
  let h := if strStartsWith (strDrop x 2) "metre:" then
      { h with meter := h.meter ++ [strDrop x 9] } else h
  if strStartsWith (strDrop x 2) "tonic:" then
    { h with tonic := h.tonic ++ [strDrop x 9] } else h

/-- The per-item body of `_parse_salami`'s inner loop: compute the regex
captures, split on `"|"`, maybe set `section`, then either overwrite the
`chords` key or append the item to `notes`. -/
def processItem (ev : SalamiEvent) (i : String) : SalamiEvent :=
  let chords := findallChords i
  let sect := strSplitPipe i
  let ev :=
    if sect.length = 1 ∧ ¬ (sect.contains "(" ∨ sect.contains ")") then
      { ev with sectionLbl? := some (sect.headD "") }
    else ev
  if chords.length ≠ 0 then { ev with chords? := some chords }
  else { ev with notes? := some (ev.notes?.getD [] ++ [i]) }

/-- The per-line body of `_parse_salami`'s outer loop.  A `#` line updates the
header; a line of length > 1 containing a tab at a positive index parses its
prefix via `float` (a `ValueError` is an `Except.error`) and appends an event;
every other line is skipped. -/
def parseSalamiLine (floatFn : String → Option ℚ) (o : ParsedSalami) (x : String) :
    Except String ParsedSalami :=
  if strStartsWith x "#" then
    .ok { o with header := processHeaderLine o.header x }
  else if 1 < strLen x then
    let spot := pyFind x '\t'
    if 0 < spot then
      match floatFn (strTake x spot.toNat) with
      | none => .error "could not convert string to float"
      | some t =>
        let items := strSplitCommaSpace (strDrop x (spot.toNat + 1))
        let ev := items.foldl processItem ⟨t, none, none, none⟩
        .ok { o with events? := some (o.events?.getD [] ++ [ev]) }
    else .ok o
  else .ok o

/-- The outer loop of `_parse_salami` over the remaining lines. -/
def parseSalamiGo (floatFn : String → Option ℚ) (o : ParsedSalami) :
    List String → Except String ParsedSalami
  | [] => .ok o
  | x :: rest =>
    match parseSalamiLine floatFn o x with
    | .error e => .error e
    | .ok o' => parseSalamiGo floatFn o' rest

/-- `_parse_salami(fn)` applied to the contents of the file. -/
def parseSalami (floatFn : String → Option ℚ) (contents : String) :
    Except String ParsedSalami :=
  parseSalamiGo floatFn emptyParsed (strSplitNl contents)

/-! ## `_parse_salami_metadata` -/

/-- The loop of `_parse_salami_metadata`: process `#` lines, `break` at the
first line that does not start with `#` (blank lines included). -/
def parseSalamiMetadataGo (h : Header) : List String → Header
  | [] => h
  | x :: rest =>
    if strStartsWith x "#" then parseSalamiMetadataGo (processHeaderLine h x) rest
    else h

/-- `_parse_salami_metadata(fn)` applied to the contents of the file. -/
def parseSalamiMetadata (contents : String) : Header :=
  parseSalamiMetadataGo emptyHeader (strSplitNl contents)

/-! ## `_timed_sections` -/

/-- The `sections` list built for one event: empty when the `notes` key is
absent or empty, a pair of the first two notes when there are at least two,
and the placeholder `None` when there is exactly one note. -/
def eventSections (e : SalamiEvent) : List (Option (String × String)) :=
  match e.notes? with
  | none => []
  | some ns =>
    if ns ≠ [] then
      if 1 < ns.length then [some (ns.getD 0 "", ns.getD 1 "")] else [none]
    else []

/-- The inner emission loop: starting at `tic`, one entry per element, the
start advancing by `seconds_per_chord` each step. -/
def emitGroup (tic spc : ℚ) : List (Option (String × String)) → List TimedSection
  | [] => []
  | c :: cs => ⟨tic, c, spc⟩ :: emitGroup (tic + spc) spc cs

/-- The per-event body of `_timed_sections`: if the `sections` list is
non-empty, divide `dt` across it and emit the timed entries. -/
def emit (e : SalamiEvent) (dt : ℚ) : List TimedSection :=
  let sections := eventSections e
  if sections ≠ [] then
    emitGroup e.time (dt / (sections.length : ℚ)) sections
  else []

/-- The loop of `_timed_sections` over the events, with
`dt = events[i+1].time - events[i].time` and `dt = 0` past the end
(the `IndexError` branch). -/
def timedSections : List SalamiEvent → List TimedSection
  | [] => []
  | [e] => emit e 0
  | e :: e' :: rest => emit e (e'.time - e.time) ++ timedSections (e' :: rest)

/-- `_timed_sections(parsed)`: looks up `parsed["events"]`, raising `KeyError`
when never populated. -/
def timedSectionsOfParsed (o : ParsedSalami) : Except String (List TimedSection) :=
  match o.events? with
  | none => .error "KeyError: events"
  | some evs => .ok (timedSections evs)

/-! ## `_load_sections` -/

/-- The interval/label construction loop of `_load_sections` over the cleaned
entries: each entry starts at its own time and ends at the next cleaned
entry's time, except the last, which ends at `timed_sections[-1]["time"]`
(passed in as `lastTime`). -/
def sectionRows (lastTime : ℚ) : List TimedSection → List ((ℚ × ℚ) × Option (String × String))
  | [] => []
  | [t] => [((t.time, lastTime), t.sectionPair?)]
  | t :: t' :: rest => ((t.time, t'.time), t.sectionPair?) :: sectionRows lastTime (t' :: rest)

/-- `timed_sections_clean`: the entries whose `section` is not `None`. -/
def cleanSections (ts : List TimedSection) : List TimedSection :=
  ts.filter (fun t => t.sectionPair?.isSome)

/-- The `SectionData` built by `_load_sections` from the timed sections.
`timed_sections[-1]["time"]` is only ever read when the cleaned list is
non-empty; the `0` fallback is unreachable then. -/
def buildSectionData (ts : List TimedSection) : SectionData :=
  let lastTime : ℚ := match ts.getLast? with | some t => t.time | none => 0
  let rows := sectionRows lastTime (cleanSections ts)
  ⟨rows.map (fun r => r.1), rows.map (fun r => r.2)⟩

/-- `_load_sections` on the contents of an existing file: parse, look up the
events, clean, and build the section data; parse errors propagate. -/
def loadSectionsOfContents (floatFn : String → Option ℚ) (contents : String) :
    Except String SectionData :=
  match parseSalami floatFn contents with
  | .error e => .error e
  | .ok o =>
    match timedSectionsOfParsed o with
    | .error e => .error e
    | .ok ts => .ok (buildSectionData ts)

/-- `_load_sections(sections_path)`: `None` path or missing file returns
`None`; otherwise the file is parsed and built. -/
def loadSections (floatFn : String → Option ℚ) (fs : FileSystem) :
    Option String → Except String (Option SectionData)
  | none => .ok none
  | some p =>
    match fs p with
    | none => .ok none
    | some contents =>
      match loadSectionsOfContents floatFn contents with
      | .error e => .error e
      | .ok sd => .ok (some sd)

/-! ## `_load_chords` -/

/-- The per-line body of `_load_chords`: rstrip, skip empty lines, unpack the
three tab-separated fields (a `ValueError` if the count differs), and parse
the two floats. -/
def parseLabLine (floatFn : String → Option ℚ) (acc : List (ℚ × ℚ × String))
    (l : String) : Except String (List (ℚ × ℚ × String)) :=
  let l := strRstrip l
  if l ≠ "" then
    match strSplitTab l with
    | [s, e, lab] =>
      match floatFn s, floatFn e with
      | some a, some b => .ok (acc ++ [(a, b, lab)])
      | _, _ => .error "could not convert string to float"
    | _ => .error "unpack"
  else .ok acc

/-- The line loop of `_load_chords`. -/
def loadChordsGo (floatFn : String → Option ℚ) (acc : List (ℚ × ℚ × String)) :
    List String → Except String (List (ℚ × ℚ × String))
  | [] => .ok acc
  | l :: rest =>
    match parseLabLine floatFn acc l with
    | .error e => .error e
    | .ok acc' => loadChordsGo floatFn acc' rest

/-- `_load_chords(path)`: `None` path or missing file returns `None`;
otherwise the LAB rows become a `ChordData`. -/
def loadChords (floatFn : String → Option ℚ) (fs : FileSystem) :
    Option String → Except String (Option ChordData)
  | none => .ok none
  | some p =>
    match fs p with
    | none => .ok none
    | some contents =>
      match loadChordsGo floatFn [] (strSplitNl contents) with
      | .error e => .error e
      | .ok rows => .ok (some ⟨rows.map (fun r => (r.1, r.2.1)), rows.map (fun r => r.2.2)⟩)

/-! ## Derived predicates -/

/-- A line that is not a data line: a `#` line, a short line, or a line with
no tab at a positive index. -/
def notDataLine (x : String) : Prop :=
  strStartsWith x "#" = true ∨ ¬ 1 < strLen x ∨ ¬ 0 < pyFind x '\t'

instance (x : String) : Decidable (notDataLine x) := by
  unfold notDataLine; infer_instance

/-! ## The chord-sequence builder, modelled from the spec

`build_chords` is code of this repository that is not under src: the
specification describes it (§4.2) but the sources only load chords from LAB
files (`_load_chords`); `_timed_sections` is the sections analogue of the
absent `_timed_chords`.  The definitions below follow the spec's words. -/

/-- Modelled from the spec: Python `str.split()` with no separator —
"splitting each token on whitespace" — splits on runs of whitespace and
drops empty pieces.  Part of the absent `build_chords`. -/
def wsSplitGo : List Char → List Char → List (List Char)
  | acc, [] => if acc = [] then [] else [acc.reverse]
  | acc, c :: rest =>
    if c.isWhitespace then
      if acc = [] then wsSplitGo [] rest else acc.reverse :: wsSplitGo [] rest
    else wsSplitGo (c :: acc) rest

/-- Modelled from the spec: whitespace-splitting a chord token into the
space-separated chord symbols sharing one timestamp cell. -/
def pySplitWs (s : String) : List String := (wsSplitGo [] s.data).map String.mk

/-- Modelled from the spec: the expanded symbol list of an event — each
chord token further split on whitespace, in order.  Part of the absent
`build_chords`. -/
def expandSymbols (e : SalamiEvent) : List String :=
  (e.chords?.getD []).flatMap pySplitWs

/-- Modelled from the spec: sustain-marker resolution for the absent
`build_chords` — each symbol that is exactly `"."` is replaced by the
immediately preceding emitted chord label (threaded in `prev?`), and a `"."`
with no predecessor is a fatal parse failure. -/
def resolveSustains (prev? : Option String) : List String → Except String (List String)
  | [] => .ok []
  | s :: rest =>
    if s = "." then
      match prev? with
      | none => .error "sustain marker with no predecessor"
      | some pl => (resolveSustains (some pl) rest).map (fun ls => pl :: ls)
    else (resolveSustains (some s) rest).map (fun ls => s :: ls)

/-- One chord interval of the absent `build_chords`. -/
structure ChordInterval where
  start : ℚ
  stop : ℚ
  label : String
deriving DecidableEq

/-- Modelled from the spec: the intra-event emission of `build_chords` —
starts advance by `spc` per symbol, and the final interval of the group
closes at the next event's literal time `tNext`. -/
def emitChords (t tNext spc : ℚ) : List String → List ChordInterval
  | [] => []
  | [l] => [⟨t, tNext, l⟩]
  | l :: l' :: rest => ⟨t, t + spc, l⟩ :: emitChords (t + spc) tNext spc (l' :: rest)

/-- Modelled from the spec: the event loop of the absent `build_chords`,
with the previously emitted label threaded through for sustain resolution;
`dt = 0` and `tNext = e.time` at the final event. -/
def buildChordsAux (prev? : Option String) : List SalamiEvent → Except String (List ChordInterval)
  | [] => .ok []
  | e :: rest =>
    let tNext := match rest with | e' :: _ => e'.time | [] => e.time
    let dt := tNext - e.time
    let syms := expandSymbols e
    match resolveSustains prev? syms with
    | .error err => .error err
    | .ok ls =>
      match buildChordsAux (ls.getLast?.or prev?) rest with
      | .error err => .error err
      | .ok tail =>
        .ok (emitChords e.time tNext (dt / (syms.length : ℚ)) ls ++ tail)

/-- Modelled from the spec: `build_chords(events)` — absent from src,
reconstructed from §4.2. -/
def buildChords (events : List SalamiEvent) : Except String (List ChordInterval) :=
  buildChordsAux none events

/-! ## Helper lemmas -/

theorem parseSalamiLine_of_notData (floatFn : String → Option ℚ)
    (o : ParsedSalami) (x : String) (h : notDataLine x) :
    ∃ o', parseSalamiLine floatFn o x = .ok o' ∧ o'.events? = o.events? := by
  unfold parseSalamiLine
  rcases h with h | h | h
  · exact ⟨⟨processHeaderLine o.header x, o.events?⟩, by simp [h], rfl⟩
  · cases hsw : strStartsWith x "#"
    · exact ⟨o, by simp [hsw, h], rfl⟩
    · exact ⟨⟨processHeaderLine o.header x, o.events?⟩, by simp [hsw], rfl⟩
  · cases hsw : strStartsWith x "#"
    · by_cases hlen : 1 < strLen x
      · exact ⟨o, by simp [hsw, hlen, h], rfl⟩
      · exact ⟨o, by simp [hsw, hlen], rfl⟩
    · exact ⟨⟨processHeaderLine o.header x, o.events?⟩, by simp [hsw], rfl⟩

theorem parseSalamiGo_of_notData (floatFn : String → Option ℚ) :
    ∀ (lines : List String) (o : ParsedSalami), (∀ x ∈ lines, notDataLine x) →
    ∃ o', parseSalamiGo floatFn o lines = .ok o' ∧ o'.events? = o.events?
  | [], o, _ => ⟨o, rfl, rfl⟩
  | x :: rest, o, h => by
    obtain ⟨o₁, h₁, he₁⟩ := parseSalamiLine_of_notData floatFn o x (h x (by simp))
    obtain ⟨o₂, h₂, he₂⟩ :=
      parseSalamiGo_of_notData floatFn rest o₁ (fun y hy => h y (by simp [hy]))
    exact ⟨o₂, by simp [parseSalamiGo, h₁, h₂], by rw [he₂, he₁]⟩

theorem parseSalamiGo_append (floatFn : String → Option ℚ) :
    ∀ (l₁ l₂ : List String) (o : ParsedSalami),
    parseSalamiGo floatFn o (l₁ ++ l₂) =
      match parseSalamiGo floatFn o l₁ with
      | .error e => .error e
      | .ok o' => parseSalamiGo floatFn o' l₂
  | [], _, _ => rfl
  | x :: rest, l₂, o => by
    simp only [List.cons_append, parseSalamiGo]
    cases parseSalamiLine floatFn o x with
    | error e => rfl
    | ok o' => exact parseSalamiGo_append floatFn rest l₂ o'

/-! ## C4 -/

/-- C4: for a `None` path and for a path missing from the filesystem,
`_load_sections` and `_load_chords` return the null result and never raise. -/
theorem load_missing_file_ok_none (floatFn : String → Option ℚ)
    (fs : FileSystem) (p : String) (h : fs p = none) :
    loadSections floatFn fs (some p) = .ok none ∧
    loadChords floatFn fs (some p) = .ok none ∧
    loadSections floatFn fs none = .ok none ∧
    loadChords floatFn fs none = .ok none := by
  refine ⟨?_, ?_, rfl, rfl⟩ <;> simp [loadSections, loadChords, h]

/-- C4 witness at a concrete empty filesystem and path. -/
theorem load_missing_file_ok_none_witness :
    ((fun _ => none : FileSystem) "missing" = none) ∧
    loadSections decFloat (fun _ => none) (some "missing") = .ok none ∧
    loadChords decFloat (fun _ => none) (some "missing") = .ok none ∧
    loadSections decFloat (fun _ => none) none = .ok none ∧
    loadChords decFloat (fun _ => none) none = .ok none :=
  ⟨rfl, load_missing_file_ok_none decFloat (fun _ => none) "missing" rfl⟩

/-! ## C10 -/

/-- C10: a file that exists but has no data line (headers-only, blank, or
otherwise) makes `_load_sections` raise the missing-key error on
`parsed["events"]` instead of returning an empty or null result. -/
theorem loadSections_no_data_line_keyerror (floatFn : String → Option ℚ)
    (fs : FileSystem) (p : String) (contents : String)
    (hfs : fs p = some contents)
    (hnd : ∀ x ∈ strSplitNl contents, notDataLine x) :
    loadSections floatFn fs (some p) = .error "KeyError: events" := by
  obtain ⟨o', hgo, hev⟩ :=
    parseSalamiGo_of_notData floatFn (strSplitNl contents) emptyParsed hnd
  have hev' : o'.events? = none := hev
  simp [loadSections, hfs, loadSectionsOfContents, parseSalami, hgo,
    timedSectionsOfParsed, hev']

/-- C10 witness: a headers-only file raises the missing-key error. -/
theorem loadSections_no_data_line_keyerror_witness :
    ((fun p => if p = "f" then some "# title: T\n# artist: U\n" else none :
        FileSystem) "f" = some "# title: T\n# artist: U\n") ∧
    (∀ x ∈ strSplitNl "# title: T\n# artist: U\n", notDataLine x) ∧
    loadSections decFloat
      (fun p => if p = "f" then some "# title: T\n# artist: U\n" else none)
      (some "f") = .error "KeyError: events" :=
  ⟨rfl, by decide,
    loadSections_no_data_line_keyerror decFloat _ "f" _ rfl (by decide)⟩

/-! ## C7 -/

/-- C7: a data line whose pre-tab prefix is not parseable as a float makes
the parse fail with a hard error that propagates through `_parse_salami` to
`_load_sections`; no event with a defaulted time is produced. -/
theorem unparsable_time_is_fatal (floatFn : String → Option ℚ)
    (fs : FileSystem) (p contents x : String) (pre rest : List String)
    (o : ParsedSalami)
    (hfs : fs p = some contents)
    (hlines : strSplitNl contents = pre ++ x :: rest)
    (hpre : parseSalamiGo floatFn emptyParsed pre = .ok o)
    (hx : strStartsWith x "#" = false)
    (hlen : 1 < strLen x)
    (hspot : 0 < pyFind x '\t')
    (hfl : floatFn (strTake x (pyFind x '\t').toNat) = none) :
    parseSalamiLine floatFn o x = .error "could not convert string to float" ∧
    parseSalami floatFn contents = .error "could not convert string to float" ∧
    loadSections floatFn fs (some p) = .error "could not convert string to float" := by
  have hline : parseSalamiLine floatFn o x = .error "could not convert string to float" := by
    unfold parseSalamiLine
    simp only [hx, Bool.false_eq_true, if_false, hlen, if_true, hspot, hfl]
  have hparse : parseSalami floatFn contents = .error "could not convert string to float" := by
    unfold parseSalami
    rw [hlines, parseSalamiGo_append, hpre]
    simp [parseSalamiGo, hline]
  refine ⟨hline, hparse, ?_⟩
  simp [loadSections, hfs, loadSectionsOfContents, hparse]

/-- C7 witness: a one-line file whose timestamp field is `"abc"`. -/
theorem unparsable_time_is_fatal_witness :
    ((fun p => if p = "f" then some "abc\tA, b" else none : FileSystem) "f" =
      some "abc\tA, b") ∧
    strSplitNl "abc\tA, b" = [] ++ "abc\tA, b" :: [] ∧
    parseSalamiGo decFloat emptyParsed [] = .ok emptyParsed ∧
    strStartsWith "abc\tA, b" "#" = false ∧
    1 < strLen "abc\tA, b" ∧
    0 < pyFind "abc\tA, b" '\t' ∧
    decFloat (strTake "abc\tA, b" (pyFind "abc\tA, b" '\t').toNat) = none ∧
    loadSections decFloat (fun p => if p = "f" then some "abc\tA, b" else none)
      (some "f") = .error "could not convert string to float" :=
  ⟨rfl, by decide, rfl, by decide, by decide, by decide, by decide,
    (unparsable_time_is_fatal decFloat
      (fun p => if p = "f" then some "abc\tA, b" else none) "f" "abc\tA, b"
      "abc\tA, b" [] [] emptyParsed rfl (by decide) rfl (by decide) (by decide)
      (by decide) (by decide)).2.2⟩

/-! ## C6 -/

/-- C6: a header line `"# title: X"` yields title `X` (capture from offset 9)
and a header line `"# artist: Y"` yields artist `Y` (capture from offset 10),
with the asymmetric offsets applied exactly. -/
theorem header_offsets_exact (h : Header) (X Y : String) :
    (processHeaderLine h ("# title: " ++ X)).title? = some X ∧
    (processHeaderLine h ("# artist: " ++ Y)).artist? = some Y := by
  obtain ⟨xd⟩ := X
  obtain ⟨yd⟩ := Y
  exact ⟨rfl, rfl⟩

/-! ## C2 -/

theorem processItem_chords (ev : SalamiEvent) (i : String) :
    (processItem ev i).chords? =
      if (findallChords i).length ≠ 0 then some (findallChords i)
      else ev.chords? := by
  unfold processItem
  by_cases hc : (findallChords i).length ≠ 0
  · rw [if_pos hc, if_pos hc]
  · rw [if_neg hc, if_neg hc]
    split <;> rfl

theorem foldl_processItem_chords :
    ∀ (items : List String) (ev : SalamiEvent),
    (items.foldl processItem ev).chords? =
      match (items.filter (fun i => !(findallChords i).isEmpty)).getLast? with
      | some j => some (findallChords j)
      | none => ev.chords?
  | [], _ => rfl
  | i :: rest, ev => by
    rw [List.foldl_cons, foldl_processItem_chords rest]
    by_cases hc : (findallChords i).isEmpty = true
    · have h0 : ¬ (findallChords i).length ≠ 0 := by
        rw [List.isEmpty_iff] at hc
        simp [hc]
      cases hgl : (rest.filter (fun i => !(findallChords i).isEmpty)).getLast? <;>
        simp [List.filter_cons, hc, hgl, processItem_chords, h0]
    · have h1 : (findallChords i).length ≠ 0 := by
        simp only [List.isEmpty_iff] at hc
        simpa [List.length_eq_zero] using hc
      cases hgl : (rest.filter (fun i => !(findallChords i).isEmpty)).getLast? <;>
        simp [List.filter_cons, hc, hgl, processItem_chords, h1, List.getLast?_cons]

/-- C2 counterexample: on the data line `0.0<TAB>| C |, | D |` both segments
contain a pipe-delimited chord, yet the event's chord list is `["D"]` — the
matches of the last matching segment only — not the concatenation
`["C", "D"]` the claim requires. -/
theorem chords_concat_all_segments_cex :
    (parseSalami decFloat "0.0\t| C |, | D |").map
        (fun o => o.events?.map (List.map (fun e => e.chords?))) =
      .ok (some [some ["D"]]) ∧
    (some ["D"] : Option (List String)) ≠ some ["C", "D"] :=
  ⟨rfl, by decide⟩

/-- C2 amended: for every data line, the event's `chords` entry equals the
pipe-delimited matches of the LAST comma-separated segment that contains at
least one such match (each matching segment overwrites, rather than extends,
the previous matches), and the `chords` key is present iff some segment has a
match. -/
theorem event_chords_eq_last_matching_segment (t : ℚ) (items : List String) :
    (items.foldl processItem ⟨t, none, none, none⟩).chords? =
      ((items.filter (fun i => !(findallChords i).isEmpty)).getLast?).map
        findallChords := by
  rw [foldl_processItem_chords]
  cases (items.filter (fun i => !(findallChords i).isEmpty)).getLast? <;> rfl

/-! ## C3 -/

theorem sectionRows_labels_mem (L : ℚ) :
    ∀ (cl : List TimedSection), ∀ r ∈ sectionRows L cl, ∃ t ∈ cl, r.2 = t.sectionPair?
  | [] => by simp [sectionRows]
  | [t] => by simp [sectionRows]
  | t :: t' :: rest => by
    intro r hr
    rw [sectionRows] at hr
    rcases List.mem_cons.mp hr with h | h
    · exact ⟨t, by simp, by rw [h]⟩
    · obtain ⟨u, hu, he⟩ := sectionRows_labels_mem L (t' :: rest) r h
      exact ⟨u, List.mem_cons_of_mem t hu, he⟩

/-- C3: an event with two or more note tokens emits exactly one timed section
labelled with the pair of the first two notes (excess notes are dropped); an
event with fewer than two note tokens emits only unlabelled entries; and
every label in the `_load_sections` output is a real pair, so such events
contribute no section interval. -/
theorem section_pair_first_two_notes (e : SalamiEvent) (dt : ℚ)
    (ts : List TimedSection) :
    (∀ n0 n1 rest, e.notes? = some (n0 :: n1 :: rest) →
      emit e dt = [⟨e.time, some (n0, n1), dt⟩]) ∧
    ((e.notes?.getD []).length < 2 → ∀ x ∈ emit e dt, x.sectionPair? = none) ∧
    (∀ l ∈ (buildSectionData ts).labels, l ≠ none) := by
  refine ⟨?_, ?_, ?_⟩
  · intro n0 n1 rest h
    simp [emit, eventSections, h, emitGroup]
  · intro hlt x hx
    cases hn : e.notes? with
    | none => simp [emit, eventSections, hn] at hx
    | some ns =>
      cases ns with
      | nil => simp [emit, eventSections, hn] at hx
      | cons a tail =>
        cases tail with
        | nil =>
          simp [emit, eventSections, hn, emitGroup] at hx
          rw [hx]
        | cons b t2 =>
          simp [hn] at hlt
          omega
  · intro l hl
    simp only [buildSectionData, List.mem_map] at hl
    obtain ⟨r, hr, hrl⟩ := hl
    obtain ⟨u, hu, he⟩ := sectionRows_labels_mem _ _ r hr
    have hu' : u ∈ List.filter (fun t : TimedSection => t.sectionPair?.isSome) ts := hu
    have hsome := List.of_mem_filter hu'
    rw [← hrl, he]
    exact Option.isSome_iff_ne_none.mp hsome

/-- C3 witness: an event with three note tokens yields the pair of the first
two; a one-note event emits only unlabelled entries; a concrete section
build has no `none` label. -/
theorem section_pair_first_two_notes_witness :
    emit ⟨0, none, none, some ["A", "intro", "x"]⟩ 5 =
      [⟨0, some ("A", "intro"), 5⟩] ∧
    (((⟨0, none, none, some ["solo"]⟩ : SalamiEvent).notes?.getD []).length < 2) ∧
    (∀ x ∈ emit ⟨0, none, none, some ["solo"]⟩ 5, x.sectionPair? = none) ∧
    (∀ l ∈ (buildSectionData [⟨0, some ("A", "intro"), 1⟩, ⟨1, none, 0⟩]).labels,
      l ≠ none) :=
  ⟨(section_pair_first_two_notes ⟨0, none, none, some ["A", "intro", "x"]⟩ 5 []).1
      "A" "intro" ["x"] rfl,
   by decide,
   (section_pair_first_two_notes ⟨0, none, none, some ["solo"]⟩ 5 []).2.1 (by decide),
   (section_pair_first_two_notes ⟨0, none, none, none⟩ 0
      [⟨0, some ("A", "intro"), 1⟩, ⟨1, none, 0⟩]).2.2⟩

/-! ## C5 -/

theorem parseSalamiLine_header (floatFn : String → Option ℚ)
    (o o' : ParsedSalami) (x : String)
    (h : parseSalamiLine floatFn o x = .ok o') :
    o'.header = if strStartsWith x "#" = true then processHeaderLine o.header x
      else o.header := by
  simp only [parseSalamiLine] at h
  split at h
  · next hc =>
      rw [if_pos hc]
      injection h with h
      rw [← h]
  · next hc =>
      rw [if_neg hc]
      split at h
      · split at h
        · split at h
          · exact Except.noConfusion h
          · injection h with h; rw [← h]
        · injection h with h; rw [← h]
      · injection h with h; rw [← h]

theorem parseSalamiGo_header (floatFn : String → Option ℚ) :
    ∀ (lines : List String) (o o' : ParsedSalami),
    parseSalamiGo floatFn o lines = .ok o' →
    o'.header = (lines.filter (fun x => strStartsWith x "#")).foldl
      processHeaderLine o.header
  | [], o, o', h => by
    injection h with h
    rw [← h]
    rfl
  | x :: rest, o, o', h => by
    rw [parseSalamiGo] at h
    cases hline : parseSalamiLine floatFn o x with
    | error e => rw [hline] at h; exact Except.noConfusion h
    | ok o₁ =>
      rw [hline] at h
      have hdr := parseSalamiLine_header floatFn o o₁ x hline
      have ih := parseSalamiGo_header floatFn rest o₁ o' h
      rw [List.filter_cons]
      by_cases hsw : strStartsWith x "#" = true
      · rw [if_pos hsw, List.foldl_cons, ih, hdr, if_pos hsw]
      · rw [if_neg hsw, ih, hdr, if_neg hsw]

/-- C5 counterexample: header parsing does not stop exactly at the first
non-blank non-`#` line.  In `_parse_salami_metadata` a blank line DOES
terminate it (the title on the next line is lost), and in `_parse_salami` a
header-key line appearing after a data line DOES contribute to the header. -/
theorem header_stop_cex :
    (parseSalamiMetadata "\n# title: Foo").title? = none ∧
    (parseSalami decFloat "0.0\tA, intro\n# title: Foo").map
        (fun o => o.header.title?) = .ok (some "Foo") ∧
    (some "Foo" : Option String) ≠ (none : Option String) :=
  ⟨rfl, rfl, by decide⟩

/-- C5 amended: `_parse_salami_metadata` stops at the first line that does
not start with `#` — blank lines included — and processes `#` lines until
then; `_parse_salami` never stops: its final header is the fold of the
header extraction over exactly the `#`-prefixed lines, wherever they occur. -/
theorem header_parsing_amended :
    (∀ (h : Header) (x : String) (rest : List String),
      (¬ strStartsWith x "#" = true → parseSalamiMetadataGo h (x :: rest) = h) ∧
      (strStartsWith x "#" = true →
        parseSalamiMetadataGo h (x :: rest) =
          parseSalamiMetadataGo (processHeaderLine h x) rest)) ∧
    (∀ (floatFn : String → Option ℚ) (lines : List String) (o o' : ParsedSalami),
      parseSalamiGo floatFn o lines = .ok o' →
      o'.header = (lines.filter (fun x => strStartsWith x "#")).foldl
        processHeaderLine o.header) :=
  ⟨fun h x rest =>
    ⟨fun hn => by rw [parseSalamiMetadataGo, if_neg hn],
     fun hp => by rw [parseSalamiMetadataGo, if_pos hp]⟩,
   fun floatFn lines o o' hgo => parseSalamiGo_header floatFn lines o o' hgo⟩

/-- C5 amended witness: a blank line stops the metadata loop, a `#` line
steps it, and a concrete two-line parse has its header given by the fold
over its single `#` line. -/
theorem header_parsing_amended_witness :
    (¬ strStartsWith "" "#" = true) ∧
    parseSalamiMetadataGo emptyHeader ["", "# title: Foo"] = emptyHeader ∧
    (strStartsWith "# metre: 4/4" "#" = true) ∧
    parseSalamiMetadataGo emptyHeader ["# metre: 4/4", "x"] =
      parseSalamiMetadataGo (processHeaderLine emptyHeader "# metre: 4/4") ["x"] ∧
    parseSalamiGo decFloat emptyParsed (strSplitNl "0.0\tA, intro\n# title: Foo") =
      .ok ⟨⟨some "Foo", none, [], []⟩, some [⟨0, some "intro", none, some ["A", "intro"]⟩]⟩ ∧
    (⟨⟨some "Foo", none, [], []⟩,
        some [⟨0, some "intro", none, some ["A", "intro"]⟩]⟩ : ParsedSalami).header =
      ((strSplitNl "0.0\tA, intro\n# title: Foo").filter
        (fun x => strStartsWith x "#")).foldl processHeaderLine emptyParsed.header :=
  ⟨by decide,
   (header_parsing_amended.1 emptyHeader "" ["# title: Foo"]).1 (by decide),
   by decide,
   (header_parsing_amended.1 emptyHeader "# metre: 4/4" ["x"]).2 (by decide),
   by with_unfolding_all rfl,
   header_parsing_amended.2 decFloat (strSplitNl "0.0\tA, intro\n# title: Foo")
     emptyParsed ⟨⟨some "Foo", none, [], []⟩,
       some [⟨0, some "intro", none, some ["A", "intro"]⟩]⟩
     (by with_unfolding_all rfl)⟩

/-! ## Structure lemmas for `_timed_sections` and `_load_sections` -/

theorem eventSections_small (e : SalamiEvent) :
    eventSections e = [] ∨ ∃ c, eventSections e = [c] := by
  unfold eventSections
  cases e.notes? with
  | none => exact Or.inl rfl
  | some ns =>
    by_cases h : ns ≠ []
    · by_cases h1 : 1 < ns.length
      · exact Or.inr ⟨some (ns.getD 0 "", ns.getD 1 ""), by simp [h, h1]⟩
      · exact Or.inr ⟨none, by simp [h, h1]⟩
    · exact Or.inl (by simp [h])

theorem emit_shape (e : SalamiEvent) (dt : ℚ) :
    emit e dt = [] ∨ ∃ c, emit e dt = [⟨e.time, c, dt⟩] := by
  unfold emit
  rcases eventSections_small e with h | ⟨c, h⟩
  · exact Or.inl (by simp [h])
  · exact Or.inr ⟨c, by simp [h, emitGroup]⟩

theorem emit_of_notes (e : SalamiEvent) (dt : ℚ) (ns : List String)
    (hn : e.notes? = some ns) (hne : ns ≠ []) :
    ∃ c, emit e dt = [⟨e.time, c, dt⟩] := by
  unfold emit eventSections
  rw [hn]
  by_cases h1 : 1 < ns.length
  · exact ⟨some (ns.getD 0 "", ns.getD 1 ""), by simp [hne, h1, emitGroup]⟩
  · exact ⟨none, by simp [hne, h1, emitGroup]⟩

theorem timedSections_time_sublist :
    ∀ evs : List SalamiEvent,
    ((timedSections evs).map (fun x => x.time)).Sublist
      (evs.map (fun e => e.time))
  | [] => by simp [timedSections]
  | [e] => by
    rcases emit_shape e 0 with h | ⟨c, h⟩
    · rw [timedSections, h]
      exact List.nil_sublist _
    · rw [timedSections, h]
      exact List.Sublist.refl _
  | e :: e' :: rest => by
    have ih := timedSections_time_sublist (e' :: rest)
    rw [timedSections, List.map_append, List.map_cons]
    rcases emit_shape e (e'.time - e.time) with h | ⟨c, h⟩
    · rw [h, List.map_nil, List.nil_append]
      exact ih.cons e.time
    · rw [h, List.map_cons, List.map_nil, List.singleton_append]
      exact ih.cons₂ e.time

theorem timedSections_getLast_time :
    ∀ (evs : List SalamiEvent) (e : SalamiEvent), evs.getLast? = some e →
    ∀ ns, e.notes? = some ns → ns ≠ [] →
    ((timedSections evs).getLast?).map (fun x => x.time) = some e.time
  | [], e, h, _, _, _ => by simp at h
  | [e'], e, h, ns, hn, hne => by
    have he : e' = e := by simpa using h
    subst he
    obtain ⟨c, hc⟩ := emit_of_notes e' 0 ns hn hne
    rw [timedSections, hc]
    rfl
  | e₀ :: e₁ :: rest, e, h, ns, hn, hne => by
    have h' : (e₁ :: rest).getLast? = some e := by
      rw [← h, List.getLast?_cons_cons]
    have ih := timedSections_getLast_time (e₁ :: rest) e h' ns hn hne
    rw [timedSections, List.getLast?_append]
    cases hgl : (timedSections (e₁ :: rest)).getLast? with
    | none => rw [hgl] at ih; exact absurd ih (by simp)
    | some t =>
      rw [hgl] at ih
      rw [show (some t).or ((emit e₀ (e₁.time - e₀.time)).getLast?) = some t from rfl]
      exact ih

theorem sectionRows_map_start (L : ℚ) :
    ∀ cl : List TimedSection,
    (sectionRows L cl).map (fun r => r.1.1) = cl.map (fun t => t.time)
  | [] => rfl
  | [t] => rfl
  | t :: t' :: rest => by
    rw [sectionRows, List.map_cons, sectionRows_map_start L (t' :: rest)]
    rfl

theorem sectionRows_chain (L : ℚ) :
    ∀ cl : List TimedSection,
    List.Chain' (fun a b : ℚ × ℚ => a.2 = b.1)
      ((sectionRows L cl).map (fun r => r.1))
  | [] => by simp [sectionRows]
  | [t] => by simp [sectionRows]
  | t :: t' :: rest => by
    have ih := sectionRows_chain L (t' :: rest)
    rw [sectionRows, List.map_cons]
    cases rest with
    | nil =>
      rw [sectionRows, List.map_cons] at ih ⊢
      exact List.chain'_cons.mpr ⟨rfl, ih⟩
    | cons t'' r2 =>
      rw [sectionRows, List.map_cons] at ih ⊢
      exact List.chain'_cons.mpr ⟨rfl, ih⟩

theorem sectionRows_getLast (L : ℚ) :
    ∀ (cl : List TimedSection) (t : TimedSection), cl.getLast? = some t →
    (sectionRows L cl).getLast? = some ((t.time, L), t.sectionPair?)
  | [], t, h => by simp at h
  | [u], t, h => by
    have hu : u = t := by simpa using h
    subst hu
    rfl
  | u :: u' :: rest, t, h => by
    have h' : (u' :: rest).getLast? = some t := by
      rw [← h, List.getLast?_cons_cons]
    have ih := sectionRows_getLast L (u' :: rest) t h'
    rw [sectionRows, List.getLast?_cons, ih]
    rfl

theorem chain_eq_pairwise_le :
    ∀ l : List (ℚ × ℚ), List.Chain' (fun a b => a.2 = b.1) l →
    List.Pairwise (fun a b => a.1 ≤ b.1) l →
    List.Pairwise (fun a b => a.2 ≤ b.1) l
  | [], _, _ => List.Pairwise.nil
  | [a], _, _ => by simp
  | a :: b :: l, hc, hp => by
    obtain ⟨hab, hc'⟩ := List.chain'_cons.mp hc
    obtain ⟨_, hp'⟩ := List.pairwise_cons.mp hp
    refine List.pairwise_cons.mpr ⟨?_, chain_eq_pairwise_le (b :: l) hc' hp'⟩
    intro y hy
    rcases List.mem_cons.mp hy with rfl | hy'
    · exact le_of_eq hab
    · obtain ⟨hb, _⟩ := List.pairwise_cons.mp hp'
      rw [hab]
      exact hb y hy'

/-! ## C9 -/

/-- C9 counterexample: in the file `0.0<TAB>A, intro` / `1.0<TAB>| C |`, the
last event (time `1.0`) has zero note tokens, hence "fewer than two", yet
the final labelled section does NOT extend to its time: the single interval
is `(0, 0)`, because a chord-only event contributes no timed-section entry
at all and `timed_sections[-1]` is the earlier entry at time 0. -/
theorem final_section_end_cex :
    loadSections decFloat
        (fun p => if p = "f" then some "0.0\tA, intro\n1.0\t| C |" else none)
        (some "f") =
      .ok (some ⟨[((0 : ℚ), (0 : ℚ))], [some ("A", "intro")]⟩) ∧
    (parseSalami decFloat "0.0\tA, intro\n1.0\t| C |").map
        (fun o => o.events?.map (List.map (fun e => e.time))) =
      .ok (some [0, 1]) ∧
    ((0 : ℚ) ≠ (1 : ℚ)) :=
  ⟨by with_unfolding_all rfl, by with_unfolding_all rfl,
   by with_unfolding_all decide⟩

/-- C9 amended: the final interval of `_load_sections` ends at the time of
the last timed-section entry — the last event with at least ONE note token
(not "fewer than two"): its start is the last cleaned entry's time and its
end the last timed entry's time; if the file's last event has one or more
note tokens the final section extends to that event's time; and if the last
timed entry is itself the last cleaned one, the final interval is
zero-length. -/
theorem final_end_eq_last_timed_entry :
    (∀ (ts : List TimedSection) (t u : TimedSection), ts.getLast? = some t →
      (cleanSections ts).getLast? = some u →
      (buildSectionData ts).intervals.getLast? = some (u.time, t.time)) ∧
    (∀ (evs : List SalamiEvent) (e : SalamiEvent), evs.getLast? = some e →
      ∀ ns, e.notes? = some ns → ns ≠ [] →
      ((timedSections evs).getLast?).map (fun x => x.time) = some e.time) ∧
    (∀ (ts : List TimedSection) (t : TimedSection), ts.getLast? = some t →
      (cleanSections ts).getLast? = some t →
      (buildSectionData ts).intervals.getLast? = some (t.time, t.time)) := by
  have main : ∀ (ts : List TimedSection) (t u : TimedSection),
      ts.getLast? = some t → (cleanSections ts).getLast? = some u →
      (buildSectionData ts).intervals.getLast? = some (u.time, t.time) := by
    intro ts t u ht hu
    show ((sectionRows (match ts.getLast? with
        | some t => t.time | none => 0) (cleanSections ts)).map
          (fun r => r.1)).getLast? = some (u.time, t.time)
    rw [List.getLast?_map, ht]
    rw [sectionRows_getLast t.time (cleanSections ts) u hu]
    rfl
  exact ⟨main, timedSections_getLast_time, fun ts t ht hcl => main ts t t ht hcl⟩

/-- C9 amended witness: a two-entry timed-section list whose second entry is
unlabelled gives final interval `(0, 1)`; a two-event list whose last event
has exactly one note still emits its time as the last entry; and a
single-entry list gives the zero-length final interval `(0, 0)`. -/
theorem final_end_eq_last_timed_entry_witness :
    (([⟨0, some ("A", "intro"), 1⟩, ⟨1, none, 0⟩] : List TimedSection).getLast? =
      some ⟨1, none, 0⟩) ∧
    (cleanSections [⟨0, some ("A", "intro"), 1⟩, ⟨1, none, 0⟩]).getLast? =
      some ⟨0, some ("A", "intro"), 1⟩ ∧
    (buildSectionData [⟨0, some ("A", "intro"), 1⟩, ⟨1, none, 0⟩]).intervals.getLast? =
      some ((0 : ℚ), (1 : ℚ)) ∧
    (([⟨0, none, none, some ["A", "intro"]⟩, ⟨1, none, none, some ["Z"]⟩] :
        List SalamiEvent).getLast? = some ⟨1, none, none, some ["Z"]⟩) ∧
    ((timedSections [⟨0, none, none, some ["A", "intro"]⟩,
        ⟨1, none, none, some ["Z"]⟩]).getLast?).map (fun x => x.time) =
      some (1 : ℚ) ∧
    (buildSectionData [⟨0, some ("A", "intro"), 0⟩]).intervals.getLast? =
      some ((0 : ℚ), (0 : ℚ)) :=
  ⟨by with_unfolding_all decide, by with_unfolding_all decide,
   final_end_eq_last_timed_entry.1 _ ⟨1, none, 0⟩ ⟨0, some ("A", "intro"), 1⟩
     (by with_unfolding_all decide) (by with_unfolding_all decide),
   by with_unfolding_all decide,
   final_end_eq_last_timed_entry.2.1 _ ⟨1, none, none, some ["Z"]⟩
     (by with_unfolding_all decide) ["Z"] rfl (by decide),
   final_end_eq_last_timed_entry.2.2 _ ⟨0, some ("A", "intro"), 0⟩
     (by with_unfolding_all decide) (by with_unfolding_all decide)⟩

/-! ## C1 -/

/-- C1: on any file whose parsed events are in non-decreasing time order
(the order the format assumes), `_load_sections` yields intervals that are
contiguous — `end[i] == start[i+1]` exactly, for every adjacent pair —
ordered by start, and non-overlapping. -/
theorem sections_contiguous_sorted (floatFn : String → Option ℚ)
    (fs : FileSystem) (p contents : String) (o : ParsedSalami)
    (evs : List SalamiEvent)
    (hfs : fs p = some contents)
    (hp : parseSalami floatFn contents = .ok o)
    (hev : o.events? = some evs)
    (hsort : List.Chain' (· ≤ ·) (evs.map (fun e => e.time))) :
    ∃ sd, loadSections floatFn fs (some p) = .ok (some sd) ∧
      List.Chain' (fun a b : ℚ × ℚ => a.2 = b.1) sd.intervals ∧
      List.Pairwise (fun a b : ℚ × ℚ => a.1 ≤ b.1) sd.intervals ∧
      List.Pairwise (fun a b : ℚ × ℚ => a.2 ≤ b.1) sd.intervals := by
  have h1 : List.Pairwise (· ≤ ·) (evs.map (fun e => e.time)) :=
    List.chain'_iff_pairwise.mp hsort
  have h2 : List.Pairwise (· ≤ ·)
      ((timedSections evs).map (fun x => x.time)) :=
    List.Pairwise.sublist (timedSections_time_sublist evs) h1
  have h3 : ((cleanSections (timedSections evs)).map (fun x => x.time)).Sublist
      ((timedSections evs).map (fun x => x.time)) :=
    (List.filter_sublist _).map _
  have h4 : List.Pairwise (· ≤ ·)
      ((cleanSections (timedSections evs)).map (fun x => x.time)) :=
    List.Pairwise.sublist h3 h2
  have hps : ∀ L : ℚ, List.Pairwise (fun a b : ℚ × ℚ => a.1 ≤ b.1)
      ((sectionRows L (cleanSections (timedSections evs))).map (fun r => r.1)) := by
    intro L
    have h5 := sectionRows_map_start L (cleanSections (timedSections evs))
    have h6 : List.Pairwise (· ≤ ·)
        ((sectionRows L (cleanSections (timedSections evs))).map
          (fun r => r.1.1)) := by rw [h5]; exact h4
    have h7 := List.pairwise_map.mp h6
    exact List.pairwise_map.mpr h7
  refine ⟨buildSectionData (timedSections evs), ?_, ?_, ?_, ?_⟩
  · simp [loadSections, hfs, loadSectionsOfContents, hp,
      timedSectionsOfParsed, hev]
  · exact sectionRows_chain _ _
  · exact hps _
  · exact chain_eq_pairwise_le _ (sectionRows_chain _ _) (hps _)

/-- C1 witness: a three-event annotation file with increasing times; its
section intervals are `[(0,1), (1,2), (2,2)]`. -/
theorem sections_contiguous_sorted_witness :
    ((fun p => if p = "f" then
        some "0.0\tA, intro\n1.0\tB, verse\n2.0\tZ, end" else none :
      FileSystem) "f" = some "0.0\tA, intro\n1.0\tB, verse\n2.0\tZ, end") ∧
    parseSalami decFloat "0.0\tA, intro\n1.0\tB, verse\n2.0\tZ, end" =
      .ok ⟨emptyHeader, some
        [⟨0, some "intro", none, some ["A", "intro"]⟩,
         ⟨1, some "verse", none, some ["B", "verse"]⟩,
         ⟨2, some "end", none, some ["Z", "end"]⟩]⟩ ∧
    List.Chain' (· ≤ ·)
      (([⟨0, some "intro", none, some ["A", "intro"]⟩,
         ⟨1, some "verse", none, some ["B", "verse"]⟩,
         ⟨2, some "end", none, some ["Z", "end"]⟩] : List SalamiEvent).map
        (fun e => e.time)) ∧
    (∃ sd, loadSections decFloat
        (fun p => if p = "f" then
          some "0.0\tA, intro\n1.0\tB, verse\n2.0\tZ, end" else none)
        (some "f") = .ok (some sd) ∧
      List.Chain' (fun a b : ℚ × ℚ => a.2 = b.1) sd.intervals ∧
      List.Pairwise (fun a b : ℚ × ℚ => a.1 ≤ b.1) sd.intervals ∧
      List.Pairwise (fun a b : ℚ × ℚ => a.2 ≤ b.1) sd.intervals) :=
  ⟨rfl, by with_unfolding_all rfl,
   List.chain'_cons.mpr ⟨by with_unfolding_all decide,
     List.chain'_cons.mpr ⟨by with_unfolding_all decide,
       List.chain'_singleton _⟩⟩,
   sections_contiguous_sorted decFloat
     (fun p => if p = "f" then
       some "0.0\tA, intro\n1.0\tB, verse\n2.0\tZ, end" else none)
     "f" "0.0\tA, intro\n1.0\tB, verse\n2.0\tZ, end"
     ⟨emptyHeader, some
       [⟨0, some "intro", none, some ["A", "intro"]⟩,
        ⟨1, some "verse", none, some ["B", "verse"]⟩,
        ⟨2, some "end", none, some ["Z", "end"]⟩]⟩
     [⟨0, some "intro", none, some ["A", "intro"]⟩,
      ⟨1, some "verse", none, some ["B", "verse"]⟩,
      ⟨2, some "end", none, some ["Z", "end"]⟩]
     rfl (by with_unfolding_all rfl) rfl
     (List.chain'_cons.mpr ⟨by with_unfolding_all decide,
       List.chain'_cons.mpr ⟨by with_unfolding_all decide,
         List.chain'_singleton _⟩⟩)⟩

/-! ## C8 -/

theorem buildChordsAux_error (prev? : Option String) (e : SalamiEvent)
    (rest : List SalamiEvent) (msg : String)
    (h : resolveSustains prev? (expandSymbols e) = .error msg) :
    buildChordsAux prev? (e :: rest) = .error msg := by
  simp only [buildChordsAux]
  rw [h]

/-- C8 (modelled from the spec, `build_chords` being absent from src): in
chord-sequence construction every symbol that is exactly the sustain marker
`"."` resolves to the immediately preceding emitted label; the spec's test
`["C", ".", "D"]` resolves to `["C", "C", "D"]`; and a leading `"."` with no
predecessor makes the whole construction fail rather than default. -/
theorem sustain_marker_resolution :
    (∀ (pl : String) (rest : List String),
      resolveSustains (some pl) ("." :: rest) =
        (resolveSustains (some pl) rest).map (fun ls => pl :: ls)) ∧
    (∀ rest : List String,
      resolveSustains none ("." :: rest) =
        .error "sustain marker with no predecessor") ∧
    resolveSustains none ["C", ".", "D"] = .ok ["C", "C", "D"] ∧
    (∀ (e : SalamiEvent) (rest : List SalamiEvent),
      (expandSymbols e).head? = some "." →
      buildChords (e :: rest) = .error "sustain marker with no predecessor") := by
  refine ⟨fun pl rest => rfl, fun rest => rfl, rfl, ?_⟩
  intro e rest hh
  cases hex : expandSymbols e with
  | nil => rw [hex] at hh; exact absurd hh (by simp)
  | cons s tl =>
    rw [hex] at hh
    have hs : s = "." := by simpa using hh
    subst hs
    exact buildChordsAux_error none e rest _ (by rw [hex]; rfl)

/-- C8 witness: the sustain fact at concrete inputs, and a file whose first
expanded chord symbol is `"."` failing construction. -/
theorem sustain_marker_resolution_witness :
    resolveSustains (some "C") ("." :: ["D"]) =
      (resolveSustains (some "C") ["D"]).map (fun ls => "C" :: ls) ∧
    resolveSustains none ("." :: []) =
      .error "sustain marker with no predecessor" ∧
    resolveSustains none ["C", ".", "D"] = .ok ["C", "C", "D"] ∧
    ((expandSymbols ⟨0, none, some ["."], none⟩).head? = some ".") ∧
    buildChords [⟨0, none, some ["."], none⟩] =
      .error "sustain marker with no predecessor" :=
  ⟨sustain_marker_resolution.1 "C" ["D"],
   sustain_marker_resolution.2.1 [],
   sustain_marker_resolution.2.2.1,
   rfl,
   sustain_marker_resolution.2.2.2 ⟨0, none, some ["."], none⟩ [] rfl⟩

end Billboard
